import Mathlib

/-!
Shallow embedding of the core of `null-statement-parser` (a Go program that
merges RBC statement/CSV transactions and resolves accounts against a remote
ledger), together with proofs about the claims of its specification.

Strings are modelled as `List Char` (`Str`); Go byte-level operations on the
ASCII data handled here (account numbers, mapping lines) coincide with the
character-level operations used below.  `time.Time` values are modelled as
`Nat` with `After = (· < ·)`; `float64` amounts are modelled as `ℚ` (the CSV
amounts are exact decimals and no claim depends on floating-point rounding).
External collaborators (the interactive prompt, the gRPC account-creation
call, `strconv.ParseFloat`, `time.Parse`) are parameters of the embedding.
-/

/-- Strings as lists of characters. -/
abbrev Str : Type := List Char

/-- Embed a Lean string literal into the `Str` model. -/
def str (s : String) : Str := s.data

/-- Transaction direction, from `domain.Direction` (`domain.In` / `domain.Out`). -/
inductive Direction where
  | In : Direction
  | Out : Direction
deriving DecidableEq, Repr

/-- Canonical transaction, from `domain.Transaction` as used throughout the
source (`TxDate`, `TxAmount`, `TxCurrency`, `TxDirection`, `TxDesc`,
`StatementAccountNumber`, `StatementAccountType`, `StatementAccountName`,
`SourceFilePath`, `AccountID`).  Dates are `Nat` (ordered timestamps),
amounts are `ℚ`. -/
structure Transaction where
  txDate : Nat
  txAmount : ℚ
  txCurrency : Str
  txDirection : Direction
  txDesc : Str
  statementAccountNumber : Option Str
  statementAccountType : Str
  statementAccountName : Str
  sourceFilePath : Str
  accountID : Int := 0
deriving DecidableEq, Repr

/-! ## Merge/dedup engine (`parser.MergeCSVWithStatements` and helpers) -/

/-- `parser.GetLast4Digits`: the last 4 characters of an account number, or
the whole number when shorter. -/
def GetLast4Digits (accountNumber : Str) : Str :=
  if accountNumber.length ≥ 4 then
    accountNumber.drop (accountNumber.length - 4)
  else accountNumber

/-- Suffix test used by `parser.MatchesAccount` (`strings.HasSuffix`). -/
def endsWith (s suffixChars : Str) : Bool :=
  decide (suffixChars <:+ s)

/-- `parser.MatchesAccount`: a transaction matches `last4` when its account
number ends with (or equals) `last4`; transactions without an account number
never match. -/
def MatchesAccount (tx : Transaction) (last4 : Str) : Bool :=
  match tx.statementAccountNumber with
  | none => false
  | some accountNum => endsWith accountNum last4 || accountNum == last4

/-- Loop body of `parser.FindLatestTransactionDate`. -/
def latestStep (last4 : Str) (latest : Option Nat) (tx : Transaction) : Option Nat :=
  if MatchesAccount tx last4 then
    match latest with
    | none => some tx.txDate
    | some d => if tx.txDate > d then some tx.txDate else latest
  else latest

/-- `parser.FindLatestTransactionDate`: latest date among transactions whose
account matches `last4`, or `none` when no transaction matches. -/
def FindLatestTransactionDate (transactions : List Transaction) (accountLast4 : Str) :
    Option Nat :=
  transactions.foldl (latestStep accountLast4) none

/-- Keep-condition of the merge filter: no cutoff, or strictly after the
cutoff (`tx.TxDate.After(*cutoff)`). -/
def keepTx (cutoff : Option Nat) (tx : Transaction) : Bool :=
  match cutoff with
  | none => true
  | some d => decide (d < tx.txDate)

/-- The group of CSV transactions whose account number has last-4 key `last4`
(the bucket `csvByAccount[last4]`; transactions with a `nil` account number
are skipped by the grouping loop). -/
def csvGroup (csvTxs : List Transaction) (last4 : Str) : List Transaction :=
  csvTxs.filter fun tx =>
    match tx.statementAccountNumber with
    | none => false
    | some n => GetLast4Digits n == last4

/-- The set of keys of `csvByAccount`, enumerated in first-occurrence order.
A Go map is iterated in an unspecified order, so merge results below are
parametrised by an arbitrary permutation of this list. -/
def csvGroupKeys (csvTxs : List Transaction) : List Str :=
  (csvTxs.filterMap fun tx => tx.statementAccountNumber.map GetLast4Digits).dedup

/-- The `newTransactions` list of `parser.MergeCSVWithStatements`: for each
account group (in map-iteration order `keyOrder`), the group's transactions
that survive the cutoff filter. -/
def mergeNewTransactions (statementTxs csvTxs : List Transaction) (keyOrder : List Str) :
    List Transaction :=
  keyOrder.flatMap fun last4 =>
    (csvGroup csvTxs last4).filter (keepTx (FindLatestTransactionDate statementTxs last4))

/-- `parser.MergeCSVWithStatements`, parametrised by the iteration order
`keyOrder` of the `csvByAccount` map (any permutation of `csvGroupKeys`). -/
def MergeCSVWithStatements (statementTxs csvTxs : List Transaction) (keyOrder : List Str) :
    List Transaction :=
  statementTxs ++ mergeNewTransactions statementTxs csvTxs keyOrder

/-! ## String utilities (models of the `strings`/`bufio` operations used) -/

/-- Go `unicode.IsSpace`: the Unicode white-space code points. -/
def goIsSpace (c : Char) : Bool :=
  c == ' ' || c == '\t' || c == '\n' || c.toNat == 11 || c.toNat == 12 || c == '\r' ||
  c.toNat == 0x85 || c.toNat == 0xA0 || c.toNat == 0x1680 ||
  (decide (0x2000 ≤ c.toNat) && decide (c.toNat ≤ 0x200A)) ||
  c.toNat == 0x2028 || c.toNat == 0x2029 ||
  c.toNat == 0x202F || c.toNat == 0x205F || c.toNat == 0x3000

/-- Go `strings.TrimSpace`: drop white space from both ends. -/
def trimSpace (s : Str) : Str :=
  ((s.dropWhile goIsSpace).reverse.dropWhile goIsSpace).reverse

/-- `bufio.ScanLines`' `dropCR`: remove one trailing carriage return. -/
def dropCR (s : Str) : Str :=
  if s.reverse.head? = some '\r' then s.dropLast else s

/-- Split on a separator character; `n` separators yield `n+1` chunks. -/
def splitOnChar (sep : Char) : Str → List Str
  | [] => [[]]
  | c :: rest =>
    if c = sep then [] :: splitOnChar sep rest
    else
      match splitOnChar sep rest with
      | [] => [[c]]
      | chunk :: chunks => (c :: chunk) :: chunks

/-- The lines handed out by `bufio.Scanner` over the artifact content (the
scanner omits a final empty token after a trailing newline; that chunk is
kept here and is a no-op for `processLine`, which skips empty lines). -/
def splitLines (content : Str) : List Str := splitOnChar '\n' content

/-- Go `strings.SplitN(line, ":", 2)`: split at the first colon; `none` when
the line has no colon (the length-1 result that `Load` skips). -/
def splitOnFirstColon : Str → Option (Str × Str)
  | [] => none
  | c :: rest =>
    if c = ':' then some ([], rest)
    else (splitOnFirstColon rest).map fun p => (c :: p.1, p.2)

/-- ASCII lowering, the fragment of Go's Unicode case folding exercised by
the account names and types handled here. -/
def foldChar (c : Char) : Char :=
  if 'A' ≤ c ∧ c ≤ 'Z' then Char.ofNat (c.toNat + 32) else c

/-- Go `strings.EqualFold` (ASCII fragment). -/
def eqFold (s t : Str) : Bool := s.map foldChar == t.map foldChar

/-- Go `strings.ToLower` (ASCII fragment). -/
def toLowerStr (s : Str) : Str := s.map foldChar

/-- Association-list lookup, modelling Go map indexing `m[k]` (`none` for a
missing key). -/
def lookupAL {α : Type} : List (Str × α) → Str → Option α
  | [], _ => none
  | (k, v) :: rest, q => if k = q then some v else lookupAL rest q

/-- Association-list overwrite, modelling Go map assignment `m[k] = v`. -/
def insertAL : List (Str × Str) → Str → Str → List (Str × Str)
  | [], k, v => [(k, v)]
  | (k0, v0) :: rest, k, v =>
    if k0 = k then (k, v) :: rest else (k0, v0) :: insertAL rest k v

/-- A single decimal digit value (`'0'`-`'9'`). -/
def decDigit? (c : Char) : Option Nat :=
  if '0' ≤ c ∧ c ≤ '9' then some (c.toNat - '0'.toNat) else none

/-- Value of a non-empty all-digit string, `none` otherwise. -/
def digitsToNat (cs : Str) : Option Nat :=
  if cs = [] then none
  else
    cs.foldl (fun acc c =>
      match acc, decDigit? c with
      | some a, some d => some (a * 10 + d)
      | _, _ => none) (some 0)

/-- Go `strconv.ParseInt(s, 10, 64)` with the error ignored, as in the
source: a malformed string yields 0 (overflow clamping is not modelled; the
inputs are account identifiers formatted by `strconv.FormatInt`). -/
def parseInt10 (s : Str) : Int :=
  match s with
  | '+' :: rest => ((digitsToNat rest).getD 0 : Nat)
  | '-' :: rest => -((digitsToNat rest).getD 0 : Nat)
  | _ => ((digitsToNat s).getD 0 : Nat)

/-! ## Account mapping store (`mapping.Store`) -/

/-- `mapping.Store`: the in-memory relation `Mappings` (statement account
number -> arian account name).  The file path is process wiring and is not
modelled; persistence is on the artifact content (a `Str`). -/
structure Store where
  mappings : List (Str × Str)
deriving DecidableEq, Repr

/-- `Store.FindMapping`: Go map lookup with the zero value `""` for a
missing key. -/
def findMapping (s : Store) (statementAccountNumber : Str) : Str :=
  (lookupAL s.mappings statementAccountNumber).getD []

/-- The in-memory mutation performed by `Store.AddMapping`
(`s.Mappings[k] = v`), which happens before and independently of the
`s.Save()` persistence step. -/
def AddMapping (s : Store) (statementAccountNumber arianAccountName : Str) : Store :=
  ⟨insertAL s.mappings statementAccountNumber arianAccountName⟩

/-- The header comment written by `Store.Save`. -/
def headerLine : Str := str "# Account mappings: statement_account -> arian_account"

/-- One mapping line as formatted by `Store.Save` (`"%s: %s"`, newline
excluded). -/
def lineOf (kv : Str × Str) : Str := kv.1 ++ ':' :: ' ' :: kv.2

/-- `Store.Save`: the artifact content written to disk — the header comment
followed by one `key: value` line per in-memory entry.  The entry order is
the store's (arbitrary) Go map iteration order, represented by the order of
`mappings`. -/
def Store.Save (s : Store) : Str :=
  headerLine ++ '\n' :: (s.mappings.flatMap fun kv => lineOf kv ++ ['\n'])

/-- Processing of one scanned line by `Store.Load`: trim; skip empty and
`#`-comment lines; split at the first colon (skipping colon-free lines);
trim both parts and store. -/
def parseLine (rawLine : Str) : Option (Str × Str) :=
  let line := trimSpace (dropCR rawLine)
  if line = [] then none
  else if line.head? = some '#' then none
  else
    match splitOnFirstColon line with
    | none => none
    | some (a, b) => some (trimSpace a, trimSpace b)

/-- `s.Mappings[statementAccount] = arianAccount` for one accepted line. -/
def processLine (m : List (Str × Str)) (rawLine : Str) : List (Str × Str) :=
  match parseLine rawLine with
  | none => m
  | some (k, v) => insertAL m k v

/-- `Store.Load` as performed by `NewStore`: scan the artifact content line
by line into an initially empty in-memory relation. -/
def Store.Load (content : Str) : Store :=
  ⟨(splitLines content).foldl processLine []⟩

/-! ## Target accounts and the resolution engine (`cmd/main.go`) -/

/-- `pb.AccountType`, restricted to the enumerants the source mentions. -/
inductive AccountType where
  | unspecified : AccountType
  | chequing : AccountType
  | savings : AccountType
  | creditCard : AccountType
deriving DecidableEq, Repr

/-- `pb.Account`, restricted to the fields the source reads (`Id`, `Name`,
`Bank`, `Type`). -/
structure Account where
  id : Int
  name : Str
  bank : Str
  type : AccountType
deriving DecidableEq, Repr

/-- `main.convertToAccountType`. -/
def convertToAccountType (accountType : Str) : AccountType :=
  if accountType = str "visa" then .creditCard
  else if accountType = str "savings" then .savings
  else if accountType = str "chequing" then .chequing
  else .unspecified

/-- `main.findMatchingAccount`: first account with the expected type and a
case-insensitively equal name. -/
def findMatchingAccount (accounts : List Account) (accountName accountType : Str) :
    Option Account :=
  let expectedType := convertToAccountType accountType
  accounts.find? fun account => account.type == expectedType && eqFold account.name accountName

/-- `Store.ResolveAccount`: case-insensitive name lookup in the account
snapshot; the empty name resolves to nothing. -/
def resolveAccount (arianAccountName : Str) (accounts : List Account) : Option Account :=
  if arianAccountName = [] then none
  else accounts.find? fun account => eqFold account.name arianAccountName

/-- The account name derived from a transaction at the top of both passes:
the statement account number when present and non-empty, else `"Unknown"`. -/
def accountNameOf (tx : Transaction) : Str :=
  match tx.statementAccountNumber with
  | some n => if n ≠ [] then n else str "Unknown"
  | none => str "Unknown"

/-- The pass-1 dedup key `accountName + "|" + tx.StatementAccountType`
tracked in `askedMappings`. -/
def mappingKeyOf (tx : Transaction) : Str :=
  accountNameOf tx ++ '|' :: tx.statementAccountType

/-- State threaded through resolution pass 1.  `accounts` and `store` are
the in-memory snapshot and mapping store of the source; `asked` is the
`askedMappings` set; `promptLog` is instrumentation recording one entry per
invocation of the fallback prompt (used to state call-count properties; it
is not part of the Go state). -/
structure P1State where
  accounts : List Account
  store : Store
  asked : List Str
  promptLog : List Str
deriving DecidableEq, Repr

/-- One iteration of the pass-1 loop for a transaction.  The external
collaborators are parameters: `prompt` models `mapping.PromptForAccountMapping`
(returning the selected account id and the new-account flag, or an error)
and `create` models `arianClient.CreateAccount`.  `log.Fatalf` is `.error`
(carrying the state reached, so invocation counts remain observable); the
returned `Nat` counts the `AddMapping` persistence attempts of this step
(0 or 1), whose success or failure the caller only logs. -/
def pass1Step (prompt : Str → List Account → Except Unit (Str × Bool))
    (create : Str → Str → AccountType → Str → Except Unit Account)
    (st : P1State) (tx : Transaction) : Except P1State (P1State × Nat) :=
  let accountName := accountNameOf tx
  let mappingKey := mappingKeyOf tx
  if mappingKey ∈ st.asked then .ok (st, 0)
  else
    let st1 : P1State := { st with asked := mappingKey :: st.asked }
    let savedName := findMapping st1.store accountName
    let fromSaved : Option Account :=
      if savedName ≠ [] then resolveAccount savedName st1.accounts else none
    let matched : Option Account :=
      match fromSaved with
      | some a => some a
      | none => findMatchingAccount st1.accounts accountName tx.statementAccountType
    match matched with
    | some _ => .ok (st1, 0)
    | none =>
      let st2 : P1State := { st1 with promptLog := st1.promptLog ++ [mappingKey] }
      match prompt accountName st1.accounts with
      | .error _ => .error st2
      | .ok (selectedAccountID, isNewAccount) =>
        if isNewAccount then
          match create accountName (str "RBC") (convertToAccountType tx.statementAccountType)
              (str "CAD") with
          | .error _ => .error st2
          | .ok newAccount =>
            .ok ({ st2 with
                    accounts := st2.accounts ++ [newAccount],
                    store := AddMapping st2.store accountName newAccount.name }, 1)
        else
          let selectedAccountIDInt := parseInt10 selectedAccountID
          match st2.accounts.find? (fun account => account.id == selectedAccountIDInt) with
          | none => .error st2
          | some account =>
            .ok ({ st2 with store := AddMapping st2.store accountName account.name }, 1)

/-- The pass-1 loop over all transactions.  `persistOk` is the outcome of the
`Store.Save` persistence step (the disk being external); a failing save adds
a logged warning (counted in the `Nat` component) and nothing else.  The
`Bool` component is `false` when the run died on `log.Fatalf`. -/
def pass1Go (prompt : Str → List Account → Except Unit (Str × Bool))
    (create : Str → Str → AccountType → Str → Except Unit Account) (persistOk : Bool) :
    List Transaction → P1State → Nat → (P1State × Nat) × Bool
  | [], st, warnings => ((st, warnings), true)
  | tx :: rest, st, warnings =>
    match pass1Step prompt create st tx with
    | .error stBad => ((stBad, warnings), false)
    | .ok (st1, saves) =>
      pass1Go prompt create persistOk rest st1 (warnings + (if persistOk then 0 else saves))

/-- Resolution pass 1 from the initial snapshot and store. -/
def pass1 (prompt : Str → List Account → Except Unit (Str × Bool))
    (create : Str → Str → AccountType → Str → Except Unit Account) (persistOk : Bool)
    (accounts0 : List Account) (store0 : Store) (txs : List Transaction) :
    (P1State × Nat) × Bool :=
  pass1Go prompt create persistOk txs ⟨accounts0, store0, [], []⟩ 0

/-- The pass-2 assignment `tx.AccountID = int(matchedAccount.Id)`. -/
def pass2Assign (tx : Transaction) (account : Account) : Transaction :=
  { tx with accountID := account.id }

/-- The pass-2 loop: look the account name up in the store; with no mapping,
fall back to `findMatchingAccount`; with a mapping, resolve it by name.
Either failure is `log.Fatalf`, modelled as `none`.  (The printed
`accountMatchStats` counters are not modelled.) -/
def pass2Go (accounts : List Account) (store : Store) :
    List Transaction → List Transaction → Option (List Transaction)
  | [], done => some done.reverse
  | tx :: rest, done =>
    let accountName := accountNameOf tx
    let arianAccountName := findMapping store accountName
    if arianAccountName = [] then
      match findMatchingAccount accounts accountName tx.statementAccountType with
      | some account => pass2Go accounts store rest (pass2Assign tx account :: done)
      | none => none
    else
      match resolveAccount arianAccountName accounts with
      | some account => pass2Go accounts store rest (pass2Assign tx account :: done)
      | none => none

/-- Resolution pass 2: assign account ids to every transaction, or die. -/
def pass2 (accounts : List Account) (store : Store) (txs : List Transaction) :
    Option (List Transaction) :=
  pass2Go accounts store txs []

/-- The exact condition under which the pass-2 loop body hits `log.Fatalf`
for a transaction, read off the two fatal branches of the source. -/
def pass2Fatal (accounts : List Account) (store : Store) (tx : Transaction) : Bool :=
  let accountName := accountNameOf tx
  let arianAccountName := findMapping store accountName
  if arianAccountName = [] then
    (findMatchingAccount accounts accountName tx.statementAccountType).isNone
  else
    (resolveAccount arianAccountName accounts).isNone

/-! ## CSV row parsing (`parser.parseCSVRow`) -/

/-- The `getCol` helper of `parseCSVRow`: the trimmed cell at the column's
index when the column exists and the row is long enough, else `""`. -/
def getCol (colIndices : List (Str × Nat)) (record : List Str) (name : Str) : Str :=
  match lookupAL colIndices name with
  | some idx =>
    match record.get? idx with
    | some cell => trimSpace cell
    | none => []
  | none => []

/-- Go `strings.ReplaceAll(s, ",", "")`. -/
def removeCommas (s : Str) : Str := s.filter fun c => c != ','

/-- `parser.parseCSVRow` over the column-access function `cols` (the
`getCol` closure).  `parseFloat` models `strconv.ParseFloat(·, 64)` and
`parseDate` models `time.Parse("1/2/2006", ·)`, both Go standard library
collaborators; `.error ()` is a rejected row (skipped with a warning by the
caller), `.ok none` is a skipped zero-amount row. -/
def parseCSVRowCols (parseFloat : Str → Option ℚ) (parseDate : Str → Option Nat)
    (cols : Str → Str) (sourcePath : Str) : Except Unit (Option Transaction) :=
  let accountType := toLowerStr (cols (str "Account Type"))
  if accountType = [] then .error ()
  else
    let accountNumber := cols (str "Account Number")
    if accountNumber = [] then .error ()
    else
      match parseDate (cols (str "Transaction Date")) with
      | none => .error ()
      | some txDate =>
        let desc1 := cols (str "Description 1")
        let desc2 := cols (str "Description 2")
        let description := trimSpace (desc1 ++ ' ' :: desc2)
        if description = [] then .error ()
        else
          let cadStr := cols (str "CAD$")
          let usdStr := cols (str "USD$")
          let parsed : Option (ℚ × Str) :=
            if cadStr ≠ [] then
              (parseFloat (removeCommas cadStr)).map fun q => (q, str "CAD")
            else if usdStr ≠ [] then
              (parseFloat (removeCommas usdStr)).map fun q => (q, str "USD")
            else none
          match parsed with
          | none => .error ()
          | some (amount, currency) =>
            if amount = 0 then .ok none
            else
              let direction := if amount < 0 then Direction.Out else Direction.In
              let magnitude := if amount < 0 then -amount else amount
              let normalizedAccountType :=
                if accountType = str "chequing" || accountType = str "savings" then
                  accountType
                else if accountType = str "visa" then str "visa"
                else accountType
              .ok (some
                { txDate := txDate
                  txAmount := magnitude
                  txCurrency := currency
                  txDirection := direction
                  txDesc := description
                  statementAccountNumber := some accountNumber
                  statementAccountType := normalizedAccountType
                  statementAccountName := []
                  sourceFilePath := sourcePath })

/-- `parser.parseCSVRow` on a raw record and header index map. -/
def parseCSVRow (parseFloat : Str → Option ℚ) (parseDate : Str → Option Nat)
    (record : List Str) (colIndices : List (Str × Nat)) (sourcePath : Str) :
    Except Unit (Option Transaction) :=
  parseCSVRowCols parseFloat parseDate (getCol colIndices record) sourcePath

/-- A well-formedness check used only in theorem statements: the optional
character (an end of a string) is not white space. -/
def noSpaceAt (o : Option Char) : Bool :=
  match o with
  | none => true
  | some c => !goIsSpace c

/-- Keys for which the artifact round-trips: non-empty, no colon, no
newline, not starting with `#`, no leading or trailing white space. -/
def wfKey (k : Str) : Bool :=
  decide (k ≠ []) && k.all (fun c => c != ':' && c != '\n') &&
  decide (k.head? ≠ some '#') && noSpaceAt k.head? && noSpaceAt k.reverse.head?

/-- Values for which the artifact round-trips: no newline, no leading or
trailing white space. -/
def wfVal (v : Str) : Bool :=
  v.all (fun c => c != '\n') && noSpaceAt v.head? && noSpaceAt v.reverse.head?

/-- The transaction produced by parsing the `colsW` row. -/
def txC10 : Transaction :=
  { txDate := 42
    txAmount := 5
    txCurrency := str "CAD"
    txDirection := Direction.In
    txDesc := str "desc"
    statementAccountNumber := some (str "12345678")
    statementAccountType := str "chequing"
    statementAccountName := []
    sourceFilePath := [] }

/-- Invariant of pass 1 used in the call-count proofs: the recorded prompt
invocations carry pairwise distinct keys, every one already in the asked
set. -/
def p1Inv (st : P1State) : Prop :=
  st.promptLog.Nodup ∧ ∀ k ∈ st.promptLog, k ∈ st.asked

/-! ## Concrete data for witnesses and counterexamples -/

/-- A canonical transaction template for the concrete examples below. -/
def baseTx : Transaction :=
  { txDate := 0
    txAmount := 1
    txCurrency := str "CAD"
    txDirection := .In
    txDesc := []
    statementAccountNumber := none
    statementAccountType := str "chequing"
    statementAccountName := []
    sourceFilePath := [] }

/-- Statement transaction on account `5163878`, dated 10. -/
def stmtW : Transaction :=
  { baseTx with txDate := 10, statementAccountNumber := some (str "5163878"),
                txDesc := str "stmt" }

/-- CSV transaction on the full account number, dated 5 (on/before cutoff). -/
def csvW1 : Transaction :=
  { baseTx with txDate := 5, statementAccountNumber := some (str "05172-5163878"),
                txDesc := str "csv1" }

/-- CSV transaction on the full account number, dated 20 (after cutoff). -/
def csvW2 : Transaction :=
  { baseTx with txDate := 20, statementAccountNumber := some (str "05172-5163878"),
                txDesc := str "csv2" }

/-- First transaction of account group `1111`. -/
def c4A1 : Transaction :=
  { baseTx with txDate := 1, statementAccountNumber := some (str "1111"), txDesc := str "A1" }

/-- A transaction of account group `2222`, between the two `1111` ones. -/
def c4B1 : Transaction :=
  { baseTx with txDate := 2, statementAccountNumber := some (str "2222"), txDesc := str "B1" }

/-- Second transaction of account group `1111`. -/
def c4A2 : Transaction :=
  { baseTx with txDate := 3, statementAccountNumber := some (str "1111"), txDesc := str "A2" }

/-- A secondary input interleaving two account groups. -/
def c4Sec : List Transaction := [c4A1, c4B1, c4A2]

/-- A secondary transaction with no account number at all. -/
def c5NoNum : Transaction := { baseTx with txDesc := str "nonum" }

/-- A prompt oracle that always fails (never consulted in the runs below). -/
def promptNone : Str → List Account → Except Unit (Str × Bool) := fun _ _ => .error ()

/-- An account-creation oracle that always fails (never consulted below). -/
def createNone : Str → Str → AccountType → Str → Except Unit Account := fun _ _ _ _ => .error ()

/-- Snapshot account whose name equals the statement account number. -/
def accW : Account := ⟨1, str "myacct", str "RBC", .chequing⟩

/-- Transaction automatically matched against `accW`. -/
def txW : Transaction :=
  { baseTx with statementAccountNumber := some (str "myacct") }

/-- Snapshot account selected by the operator in the C6 scenario. -/
def accC6 : Account := ⟨7, str "Aname", str "RBC", .chequing⟩

/-- Chequing transaction on account number `1234`. -/
def txC6a : Transaction :=
  { baseTx with statementAccountNumber := some (str "1234") }

/-- Savings transaction on the same account number `1234`. -/
def txC6b : Transaction := { txC6a with statementAccountType := str "savings" }

/-- Prompt oracle selecting existing account id 7. -/
def promptC6 : Str → List Account → Except Unit (Str × Bool) := fun _ _ => .ok (str "7", false)

/-- Snapshot account whose name equals account number `999`. -/
def accC7 : Account := ⟨1, str "999", str "RBC", .chequing⟩

/-- Transaction with no mapping-store entry but an automatic name match. -/
def txC7 : Transaction :=
  { baseTx with statementAccountNumber := some (str "999") }

/-- A concrete in-memory mapping with two well-formed entries (the second
value contains a colon, which `SplitN(·, ":", 2)` must keep intact). -/
def m9 : List (Str × Str) := [(str "12", str "My Acc"), (str "a", str "b:c")]

/-- Float oracle for the CSV witness. -/
def pfW : Str → Option ℚ :=
  fun s => if s = str "5" then some 5 else if s = str "-7" then some (-7) else none

/-- Date oracle for the CSV witness. -/
def pdW : Str → Option Nat := fun _ => some 42

/-- Column contents of a CSV row with both amount columns non-empty. -/
def colsW : Str → Str := fun name =>
  if name = str "Account Type" then str "Chequing"
  else if name = str "Account Number" then str "12345678"
  else if name = str "Transaction Date" then str "1/2/2024"
  else if name = str "Description 1" then str "desc"
  else if name = str "CAD$" then str "5"
  else if name = str "USD$" then str "9.99"
  else []

/-! ## Association-list lemmas -/

theorem lookupAL_insertAL_self (m : List (Str × Str)) (k v : Str) :
    lookupAL (insertAL m k v) k = some v := by
  induction m with
  | nil => simp [insertAL, lookupAL]
  | cons kv rest ih =>
    obtain ⟨k0, v0⟩ := kv
    by_cases h : k0 = k
    · simp [insertAL, h, lookupAL]
    · simp [insertAL, h, lookupAL, ih]

theorem lookupAL_insertAL_ne (m : List (Str × Str)) (k v q : Str) (h : k ≠ q) :
    lookupAL (insertAL m k v) q = lookupAL m q := by
  induction m with
  | nil => simp [insertAL, lookupAL, h]
  | cons kv rest ih =>
    obtain ⟨k0, v0⟩ := kv
    by_cases h0 : k0 = k
    · subst h0
      simp [insertAL, lookupAL, h]
    · simp [insertAL, h0, lookupAL, ih]

theorem lookupAL_eq_none (m : List (Str × Str)) (q : Str) (h : q ∉ m.map Prod.fst) :
    lookupAL m q = none := by
  induction m with
  | nil => rfl
  | cons kv rest ih =>
    obtain ⟨k0, v0⟩ := kv
    simp only [List.map_cons, List.mem_cons] at h
    push_neg at h
    have h0 : ¬k0 = q := fun he => h.1 he.symm
    simp [lookupAL, h0, ih h.2]

/-! ## Merge engine lemmas -/

theorem latestStep_bound_iff (last4 : Str) (t : Nat) (acc : Option Nat) (p : Transaction) :
    (∀ a, latestStep last4 acc p = some a → a < t) ↔
      ((∀ a, acc = some a → a < t) ∧ (MatchesAccount p last4 = true → p.txDate < t)) := by
  by_cases hm : MatchesAccount p last4 = true
  · cases acc with
    | none => simp [latestStep, hm]
    | some d =>
      by_cases hd : p.txDate > d
      · simp [latestStep, hm, hd]
        omega
      · simp [latestStep, hm, hd]
        omega
  · simp [latestStep, hm]

theorem findLatest_bound_iff (last4 : Str) (t : Nat) :
    ∀ (txs : List Transaction) (acc : Option Nat),
      (∀ a, txs.foldl (latestStep last4) acc = some a → a < t) ↔
        ((∀ a, acc = some a → a < t) ∧
          ∀ p ∈ txs, MatchesAccount p last4 = true → p.txDate < t) := by
  intro txs
  induction txs with
  | nil => intro acc; simp
  | cons p rest ih =>
    intro acc
    rw [List.foldl_cons, ih, latestStep_bound_iff, List.forall_mem_cons]
    tauto

theorem keepTx_iff (stmts : List Transaction) (last4 : Str) (tx : Transaction) :
    keepTx (FindLatestTransactionDate stmts last4) tx = true ↔
      ∀ p ∈ stmts, MatchesAccount p last4 = true → p.txDate < tx.txDate := by
  have h := findLatest_bound_iff last4 tx.txDate stmts none
  unfold keepTx
  cases hf : FindLatestTransactionDate stmts last4 with
  | none =>
    unfold FindLatestTransactionDate at hf
    simp only [true_iff]
    exact (h.mp fun a ha => by simp [hf] at ha).2
  | some d =>
    unfold FindLatestTransactionDate at hf
    rw [decide_eq_true_eq]
    constructor
    · intro hd
      refine (h.mp fun a ha => ?_).2
      rw [hf] at ha
      injection ha with h2
      omega
    · intro hall
      exact (h.mpr ⟨fun a ha => by simp at ha, hall⟩) d hf

theorem mem_csvGroup (csv : List Transaction) (k : Str) (tx : Transaction) (n : Str)
    (hn : tx.statementAccountNumber = some n) :
    tx ∈ csvGroup csv k ↔ tx ∈ csv ∧ GetLast4Digits n = k := by
  simp [csvGroup, List.mem_filter, hn]

theorem last4_mem_csvGroupKeys (csv : List Transaction) (tx : Transaction) (htx : tx ∈ csv)
    (n : Str) (hn : tx.statementAccountNumber = some n) :
    GetLast4Digits n ∈ csvGroupKeys csv := by
  rw [csvGroupKeys, List.mem_dedup, List.mem_filterMap]
  exact ⟨tx, htx, by simp [hn]⟩

theorem mem_mergeNew_iff (stmts csv : List Transaction) (ko : List Str)
    (hko : ko.Perm (csvGroupKeys csv)) (tx : Transaction) (htx : tx ∈ csv) (n : Str)
    (hn : tx.statementAccountNumber = some n) :
    tx ∈ mergeNewTransactions stmts csv ko ↔
      keepTx (FindLatestTransactionDate stmts (GetLast4Digits n)) tx = true := by
  rw [mergeNewTransactions, List.mem_flatMap]
  constructor
  · rintro ⟨k, _, hmem⟩
    rw [List.mem_filter] at hmem
    obtain ⟨hg, hkeep⟩ := hmem
    have hk : GetLast4Digits n = k := ((mem_csvGroup csv k tx n hn).mp hg).2
    rwa [hk]
  · intro hkeep
    refine ⟨GetLast4Digits n, hko.mem_iff.mpr (last4_mem_csvGroupKeys csv tx htx n hn), ?_⟩
    rw [List.mem_filter]
    exact ⟨(mem_csvGroup csv _ tx n hn).mpr ⟨htx, rfl⟩, hkeep⟩

/-- C1: for every primary (`stmts`) and secondary (`csv`) sequence and every
map iteration order, a secondary transaction with a present account number
appears in the merge output exactly when every primary transaction matching
the last-4 suffix of its account number is dated strictly before it — which
is the claim's disjunction: either no primary transaction matches (the
condition holds vacuously, cutoff undefined) or the transaction is dated
strictly after the maximum matching date (a transaction dated on the maximum
is excluded).  The hypothesis `tx ∉ stmts` renders the Go pointer
distinction between the two input sides in value semantics. -/
theorem merge_C1_membership (stmts csv : List Transaction) (ko : List Str)
    (hko : ko.Perm (csvGroupKeys csv)) (tx : Transaction) (htx : tx ∈ csv) (n : Str)
    (hn : tx.statementAccountNumber = some n) (hnotp : tx ∉ stmts) :
    tx ∈ MergeCSVWithStatements stmts csv ko ↔
      ∀ p ∈ stmts, MatchesAccount p (GetLast4Digits n) = true → p.txDate < tx.txDate := by
  rw [MergeCSVWithStatements, List.mem_append]
  simp only [hnotp, false_or]
  rw [mem_mergeNew_iff stmts csv ko hko tx htx n hn, keepTx_iff]

theorem merge_C1_membership_witness :
    csvW2 ∈ MergeCSVWithStatements [stmtW] [csvW1, csvW2] (csvGroupKeys [csvW1, csvW2]) ↔
      ∀ p ∈ [stmtW], MatchesAccount p (GetLast4Digits (str "05172-5163878")) = true →
        p.txDate < csvW2.txDate :=
  merge_C1_membership [stmtW] [csvW1, csvW2] (csvGroupKeys [csvW1, csvW2]) (List.Perm.refl _)
    csvW2 (by decide) (str "05172-5163878") (by decide) (by decide)

/-- C4, counterexample: with empty primary data and the secondary input
`[A1, B1, A2]` (A transactions on account `1111`, B on `2222`, all kept),
the merge output groups the two `1111` transactions together under either
of the two possible map iteration orders of the two keys, so the kept
secondary transactions do not appear in their input relative order, refuting
the claim's "no reordering within either side". -/
theorem merge_C4_counterexample :
    csvGroupKeys c4Sec = [str "2222", str "1111"] ∧
    mergeNewTransactions [] c4Sec [str "1111", str "2222"] = [c4A1, c4A2, c4B1] ∧
    mergeNewTransactions [] c4Sec [str "2222", str "1111"] = [c4B1, c4A1, c4A2] ∧
    MergeCSVWithStatements [] c4Sec [str "1111", str "2222"] ≠ c4Sec ∧
    MergeCSVWithStatements [] c4Sec [str "2222", str "1111"] ≠ c4Sec := by
  decide

/-- C4, amended: the merge output is the primary sequence (unchanged, as a
prefix) followed by the kept secondary transactions; the kept secondary
transactions form one block per account group, each block an
order-preserving subsequence of the secondary input, but the blocks follow
the map iteration order, so the secondary side's overall input order need
not be preserved. -/
theorem merge_C4_amended (stmts csv : List Transaction) (ko : List Str) :
    (MergeCSVWithStatements stmts csv ko).take stmts.length = stmts ∧
    (MergeCSVWithStatements stmts csv ko).drop stmts.length =
      (ko.flatMap fun last4 =>
        (csvGroup csv last4).filter (keepTx (FindLatestTransactionDate stmts last4))) ∧
    ∀ last4,
      ((csvGroup csv last4).filter
        (keepTx (FindLatestTransactionDate stmts last4))).Sublist csv := by
  refine ⟨List.take_left stmts _, List.drop_left stmts _, fun last4 => ?_⟩
  exact (List.filter_sublist _).trans (List.filter_sublist csv)

/-- C5, counterexample: merging an empty primary sequence with a secondary
sequence containing a transaction whose account number is absent does not
return that transaction — the grouping loop skips `nil` account numbers —
refuting "every secondary transaction is kept". -/
theorem merge_C5_counterexample :
    csvGroupKeys [c5NoNum] = [] ∧
    c5NoNum ∉ MergeCSVWithStatements [] [c5NoNum] (csvGroupKeys [c5NoNum]) := by
  decide

/-- C5, amended: merging an empty primary sequence keeps every secondary
transaction whose account number is present (the cutoff is undefined for
every group); secondary transactions without an account number are dropped
by the grouping loop. -/
theorem merge_C5_amended (csv : List Transaction) (ko : List Str)
    (hko : ko.Perm (csvGroupKeys csv)) (tx : Transaction) (htx : tx ∈ csv) (n : Str)
    (hn : tx.statementAccountNumber = some n) :
    tx ∈ MergeCSVWithStatements [] csv ko := by
  rw [MergeCSVWithStatements, List.mem_append]
  right
  rw [mem_mergeNew_iff [] csv ko hko tx htx n hn]
  rfl

theorem merge_C5_amended_witness :
    csvW1 ∈ MergeCSVWithStatements [] [csvW1] (csvGroupKeys [csvW1]) :=
  merge_C5_amended [csvW1] (csvGroupKeys [csvW1]) (List.Perm.refl _) csvW1 (by decide)
    (str "05172-5163878") (by decide)

/-! ## Resolution engine lemmas -/

theorem findMatchingAccount_mem (accounts : List Account) (accountName accountType : Str)
    (a : Account) (h : findMatchingAccount accounts accountName accountType = some a) :
    a ∈ accounts := by
  unfold findMatchingAccount at h
  exact List.mem_of_find?_eq_some h

theorem resolveAccount_mem (arianAccountName : Str) (accounts : List Account) (a : Account)
    (h : resolveAccount arianAccountName accounts = some a) : a ∈ accounts := by
  unfold resolveAccount at h
  split at h
  · exact absurd h (by simp)
  · exact List.mem_of_find?_eq_some h

theorem pass2Go_assigned (accounts : List Account) (store : Store) :
    ∀ (txs done out : List Transaction),
      pass2Go accounts store txs done = some out →
      (∀ t ∈ done, ∃ a ∈ accounts, t.accountID = a.id) →
      ∀ t ∈ out, ∃ a ∈ accounts, t.accountID = a.id := by
  intro txs
  induction txs with
  | nil =>
    intro done out h hdone t ht
    unfold pass2Go at h
    injection h with h
    subst h
    exact hdone t (List.mem_reverse.mp ht)
  | cons tx rest ih =>
    intro done out h hdone t ht
    unfold pass2Go at h
    simp only [] at h
    split at h
    · split at h
      · rename_i a hfind
        refine ih _ _ h ?_ t ht
        intro u hu
        rcases List.mem_cons.mp hu with hu | hu
        · subst hu
          exact ⟨a, findMatchingAccount_mem _ _ _ _ hfind, rfl⟩
        · exact hdone u hu
      · simp at h
    · split at h
      · rename_i a hres
        refine ih _ _ h ?_ t ht
        intro u hu
        rcases List.mem_cons.mp hu with hu | hu
        · subst hu
          exact ⟨a, resolveAccount_mem _ _ _ hres, rfl⟩
        · exact hdone u hu
      · simp at h

/-- C2: if resolution (pass 1 followed by pass 2) completes without a fatal
error, every transaction in the pass-2 output carries an `accountID` equal
to the id of some account of the final in-memory snapshot (the snapshot
produced by pass 1, i.e. the initial accounts plus those created there). -/
theorem resolve_C2_assigned (prompt : Str → List Account → Except Unit (Str × Bool))
    (create : Str → Str → AccountType → Str → Except Unit Account) (persistOk : Bool)
    (accounts0 : List Account) (store0 : Store) (txs : List Transaction) (st : P1State)
    (w : Nat) (hp1 : pass1 prompt create persistOk accounts0 store0 txs = ((st, w), true))
    (out : List Transaction) (h2 : pass2 st.accounts st.store txs = some out) :
    ∀ tx ∈ out, ∃ a ∈ st.accounts, tx.accountID = a.id :=
  pass2Go_assigned st.accounts st.store txs [] out h2 (by simp)

theorem resolve_C2_assigned_witness :
    ∃ a ∈ ([accW] : List Account), ({ txW with accountID := 1 } : Transaction).accountID = a.id :=
  resolve_C2_assigned promptNone createNone true [accW] ⟨[]⟩ [txW]
    ⟨[accW], ⟨[]⟩, [mappingKeyOf txW], []⟩ 0 (by decide) [{ txW with accountID := 1 }]
    (by decide) { txW with accountID := 1 } (by simp)

theorem pass1Step_inv_ok (prompt : Str → List Account → Except Unit (Str × Bool))
    (create : Str → Str → AccountType → Str → Except Unit Account) (st : P1State)
    (tx : Transaction) (stO : P1State) (n : Nat) (hInv : p1Inv st)
    (h : pass1Step prompt create st tx = .ok (stO, n)) : p1Inv stO := by
  obtain ⟨h1, h2⟩ := hInv
  unfold pass1Step at h
  simp only [] at h
  split at h
  · rw [Except.ok.injEq, Prod.mk.injEq] at h
    obtain ⟨hst, _⟩ := h
    exact ⟨hst ▸ h1, hst ▸ h2⟩
  · rename_i hasked
    have hnot : mappingKeyOf tx ∉ st.promptLog := fun hm => hasked (h2 _ hm)
    have hnd : (st.promptLog ++ [mappingKeyOf tx]).Nodup := by
      rw [List.nodup_append]
      refine ⟨h1, List.nodup_singleton _, ?_⟩
      intro k hk hk2
      simp at hk2
      subst hk2
      exact hnot hk
    have hsub : ∀ k ∈ st.promptLog ++ [mappingKeyOf tx], k ∈ mappingKeyOf tx :: st.asked := by
      intro k hk
      rcases List.mem_append.mp hk with hk | hk
      · exact List.mem_cons_of_mem _ (h2 _ hk)
      · simp at hk
        subst hk
        exact List.mem_cons_self _ _
    split at h
    · rw [Except.ok.injEq, Prod.mk.injEq] at h
      obtain ⟨hst, _⟩ := h
      subst hst
      exact ⟨h1, fun k hk => List.mem_cons_of_mem _ (h2 _ hk)⟩
    · split at h
      · simp at h
      · split at h
        · split at h
          · simp at h
          · rw [Except.ok.injEq, Prod.mk.injEq] at h
            obtain ⟨hst, _⟩ := h
            subst hst
            exact ⟨hnd, hsub⟩
        · split at h
          · simp at h
          · rw [Except.ok.injEq, Prod.mk.injEq] at h
            obtain ⟨hst, _⟩ := h
            subst hst
            exact ⟨hnd, hsub⟩

theorem pass1Step_inv_error (prompt : Str → List Account → Except Unit (Str × Bool))
    (create : Str → Str → AccountType → Str → Except Unit Account) (st : P1State)
    (tx : Transaction) (stE : P1State) (hInv : p1Inv st)
    (h : pass1Step prompt create st tx = .error stE) : p1Inv stE := by
  obtain ⟨h1, h2⟩ := hInv
  unfold pass1Step at h
  simp only [] at h
  split at h
  · simp at h
  · rename_i hasked
    have hnot : mappingKeyOf tx ∉ st.promptLog := fun hm => hasked (h2 _ hm)
    have hnd : (st.promptLog ++ [mappingKeyOf tx]).Nodup := by
      rw [List.nodup_append]
      refine ⟨h1, List.nodup_singleton _, ?_⟩
      intro k hk hk2
      simp at hk2
      subst hk2
      exact hnot hk
    have hsub : ∀ k ∈ st.promptLog ++ [mappingKeyOf tx], k ∈ mappingKeyOf tx :: st.asked := by
      intro k hk
      rcases List.mem_append.mp hk with hk | hk
      · exact List.mem_cons_of_mem _ (h2 _ hk)
      · simp at hk
        subst hk
        exact List.mem_cons_self _ _
    split at h
    · simp at h
    · split at h
      · rw [Except.error.injEq] at h
        subst h
        exact ⟨hnd, hsub⟩
      · split at h
        · split at h
          · rw [Except.error.injEq] at h
            subst h
            exact ⟨hnd, hsub⟩
          · simp at h
        · split at h
          · rw [Except.error.injEq] at h
            subst h
            exact ⟨hnd, hsub⟩
          · simp at h

theorem pass1Go_inv (prompt : Str → List Account → Except Unit (Str × Bool))
    (create : Str → Str → AccountType → Str → Except Unit Account) (persistOk : Bool) :
    ∀ (txs : List Transaction) (st : P1State) (w : Nat), p1Inv st →
      p1Inv (pass1Go prompt create persistOk txs st w).1.1 := by
  intro txs
  induction txs with
  | nil => intro st w hInv; exact hInv
  | cons tx rest ih =>
    intro st w hInv
    unfold pass1Go
    cases hstep : pass1Step prompt create st tx with
    | error stE =>
      simp only [hstep]
      exact pass1Step_inv_error prompt create st tx stE hInv hstep
    | ok p =>
      obtain ⟨st1, saves⟩ := p
      simp only [hstep]
      exact ih st1 _ (pass1Step_inv_ok prompt create st tx st1 saves hInv hstep)

theorem count_le_one_of_nodup (key : Str) : ∀ (l : List Str), l.Nodup → l.count key ≤ 1 := by
  intro l
  induction l with
  | nil => intro _; simp
  | cons a rest ih =>
    intro hl
    rcases List.nodup_cons.mp hl with ⟨ha, hrest⟩
    have hr := ih hrest
    by_cases hak : key = a
    · subst hak
      rw [List.count_cons_self]
      have h0 : rest.count key = 0 := List.count_eq_zero.mpr ha
      omega
    · rw [List.count_cons_of_ne hak]
      exact hr

/-- C3: during resolution pass 1 the fallback prompt is invoked at most once
per distinct account identity key (`accountName|accountType`), for any
transaction sequence, oracles and initial snapshot — in particular two
transactions sharing a key cause at most one invocation in total, and this
holds whether or not the run ends in a fatal error. -/
theorem resolve_C3_prompt_once (prompt : Str → List Account → Except Unit (Str × Bool))
    (create : Str → Str → AccountType → Str → Except Unit Account) (persistOk : Bool)
    (accounts0 : List Account) (store0 : Store) (txs : List Transaction) (key : Str) :
    ((pass1 prompt create persistOk accounts0 store0 txs).1.1.promptLog).count key ≤ 1 := by
  have h := pass1Go_inv prompt create persistOk txs ⟨accounts0, store0, [], []⟩ 0
    ⟨List.nodup_nil, by simp⟩
  exact count_le_one_of_nodup key _ h.1

/-- C6, counterexample: resolving a chequing and a savings transaction on
the same account number `1234` against an empty store (operator selecting
account id 7 for the first), the fallback prompt fires only for the first
key, the final store holds one entry keyed by the bare account number
`1234` (not by a number-and-type pair), and a store write performed for the
chequing identity is returned by the lookup for the savings identity —
refuting the claimed keying by the full pair and the claimed independence. -/
theorem store_C6_counterexample :
    (pass1 promptC6 createNone true [accC6] ⟨[]⟩ [txC6a, txC6b]).1.1.promptLog =
      [str "1234|chequing"] ∧
    (pass1 promptC6 createNone true [accC6] ⟨[]⟩ [txC6a, txC6b]).1.1.store.mappings =
      [(str "1234", str "Aname")] ∧
    (pass1 promptC6 createNone true [accC6] ⟨[]⟩ [txC6a, txC6b]).2 = true ∧
    txC6a.statementAccountType ≠ txC6b.statementAccountType ∧
    findMapping (AddMapping ⟨[]⟩ (accountNameOf txC6a) (str "Aname")) (accountNameOf txC6b) =
      str "Aname" := by
  decide

/-- C6, amended: mapping-store lookups and writes during resolution are
keyed by the account-number-or-"Unknown" component alone (the full pair
`accountName|type` is used only for the pass-1 dedup set), so two
transactions with the same account number share one mapping entry and one
lookup result even when their account types differ. -/
theorem store_C6_keyed_by_number (s : Store) (v : Str) (tx1 tx2 : Transaction)
    (hsame : accountNameOf tx1 = accountNameOf tx2)
    (hdiff : tx1.statementAccountType ≠ tx2.statementAccountType) :
    findMapping (AddMapping s (accountNameOf tx1) v) (accountNameOf tx2) = v := by
  unfold findMapping AddMapping
  rw [← hsame]
  simp [lookupAL_insertAL_self]

theorem store_C6_keyed_by_number_witness :
    findMapping (AddMapping ⟨[]⟩ (accountNameOf txC6a) (str "Aname")) (accountNameOf txC6b) =
      str "Aname" :=
  store_C6_keyed_by_number ⟨[]⟩ (str "Aname") txC6a txC6b (by decide) (by decide)

/-- C7, counterexample: a transaction whose account identity has no mapping
store entry is nevertheless resolved non-fatally in pass 2 because pass 2
falls back to automatic name-and-type matching against the snapshot —
refuting the claim that a missing store entry aborts the run. -/
theorem pass2_C7_counterexample :
    findMapping ⟨[]⟩ (accountNameOf txC7) = [] ∧
    pass2 [accC7] ⟨[]⟩ [txC7] = some [{ txC7 with accountID := 1 }] := by
  decide

theorem pass2Go_none_iff (accounts : List Account) (store : Store) :
    ∀ (txs done : List Transaction),
      pass2Go accounts store txs done = none ↔
        ∃ tx ∈ txs, pass2Fatal accounts store tx = true := by
  intro txs
  induction txs with
  | nil =>
    intro done
    simp [pass2Go]
  | cons tx rest ih =>
    intro done
    unfold pass2Go pass2Fatal
    simp only []
    by_cases hm : findMapping store (accountNameOf tx) = []
    · simp only [hm, if_true]
      cases hfind : findMatchingAccount accounts (accountNameOf tx) tx.statementAccountType with
      | none =>
        simp [hfind, hm, pass2Fatal]
      | some a =>
        rw [ih]
        simp [hfind, hm, pass2Fatal]
    · simp only [hm, if_false]
      cases hres : resolveAccount (findMapping store (accountNameOf tx)) accounts with
      | none =>
        simp [hres, hm, pass2Fatal]
      | some a =>
        rw [ih]
        simp [hres, hm, pass2Fatal]

/-- C7, amended: in pass 2 the run aborts with a fatal error exactly when
some transaction either has no store entry and also no automatic
name-and-type match in the snapshot, or has a store entry whose mapped name
resolves to no account; a transaction with no store entry but a matching
account is resolved non-fatally by the automatic fallback. -/
theorem pass2_C7_fatal_iff (accounts : List Account) (store : Store)
    (txs : List Transaction) :
    pass2 accounts store txs = none ↔ ∃ tx ∈ txs, pass2Fatal accounts store tx = true :=
  pass2Go_none_iff accounts store txs []

theorem pass1Go_persist_indep (prompt : Str → List Account → Except Unit (Str × Bool))
    (create : Str → Str → AccountType → Str → Except Unit Account) :
    ∀ (txs : List Transaction) (st : P1State) (w w2 : Nat),
      (pass1Go prompt create false txs st w).1.1 = (pass1Go prompt create true txs st w2).1.1 ∧
      (pass1Go prompt create false txs st w).2 = (pass1Go prompt create true txs st w2).2 := by
  intro txs
  induction txs with
  | nil => intro st w w2; exact ⟨rfl, rfl⟩
  | cons tx rest ih =>
    intro st w w2
    unfold pass1Go
    cases hstep : pass1Step prompt create st tx with
    | error stE => simp [hstep]
    | ok p =>
      obtain ⟨st1, saves⟩ := p
      simp only [hstep]
      exact ih st1 _ _

theorem pass1Go_true_warnings (prompt : Str → List Account → Except Unit (Str × Bool))
    (create : Str → Str → AccountType → Str → Except Unit Account) :
    ∀ (txs : List Transaction) (st : P1State) (w : Nat),
      (pass1Go prompt create true txs st w).1.2 = w := by
  intro txs
  induction txs with
  | nil => intro st w; rfl
  | cons tx rest ih =>
    intro st w
    unfold pass1Go
    cases hstep : pass1Step prompt create st tx with
    | error stE => simp only [hstep]
    | ok p =>
      obtain ⟨st1, saves⟩ := p
      simp only [hstep]
      simpa using ih st1 w

/-- C8: when the persistence step of `AddMapping` fails, the new
key-to-name association is nevertheless present in the in-memory mapping
(the map write precedes `Save`), and the resolution run continues
unchanged: a pass-1 run whose every persistence attempt fails produces the
same final state (accounts, store, asked set, prompt invocations) and the
same fatal/non-fatal outcome as one whose persistence succeeds — only the
logged warning count differs, and it is zero exactly when persistence
succeeds. -/
theorem store_C8_persist_failure (prompt : Str → List Account → Except Unit (Str × Bool))
    (create : Str → Str → AccountType → Str → Except Unit Account)
    (accounts0 : List Account) (store0 : Store) (txs : List Transaction)
    (s : Store) (k v : Str) :
    findMapping (AddMapping s k v) k = v ∧
    (pass1 prompt create false accounts0 store0 txs).1.1 =
      (pass1 prompt create true accounts0 store0 txs).1.1 ∧
    (pass1 prompt create false accounts0 store0 txs).2 =
      (pass1 prompt create true accounts0 store0 txs).2 ∧
    (pass1 prompt create true accounts0 store0 txs).1.2 = 0 := by
  refine ⟨?_, ?_, ?_, ?_⟩
  · unfold findMapping AddMapping
    simp [lookupAL_insertAL_self]
  · exact (pass1Go_persist_indep prompt create txs ⟨accounts0, store0, [], []⟩ 0 0).1
  · exact (pass1Go_persist_indep prompt create txs ⟨accounts0, store0, [], []⟩ 0 0).2
  · exact pass1Go_true_warnings prompt create txs ⟨accounts0, store0, [], []⟩ 0

/-! ## Mapping artifact round-trip lemmas -/

theorem dropWhile_eq_self_of_head (l : Str)
    (h : ∀ c, l.head? = some c → goIsSpace c = false) :
    l.dropWhile goIsSpace = l := by
  cases l with
  | nil => rfl
  | cons c rest => simp [List.dropWhile_cons, h c rfl]

theorem trimSpace_eq_self (l : Str)
    (h1 : ∀ c, l.head? = some c → goIsSpace c = false)
    (h2 : ∀ c, l.reverse.head? = some c → goIsSpace c = false) :
    trimSpace l = l := by
  unfold trimSpace
  rw [dropWhile_eq_self_of_head l h1, dropWhile_eq_self_of_head l.reverse h2,
    List.reverse_reverse]

theorem noSpaceAt_iff (o : Option Char) :
    noSpaceAt o = true ↔ ∀ c, o = some c → goIsSpace c = false := by
  cases o <;> simp [noSpaceAt]

theorem wfKey_props (k : Str) (h : wfKey k = true) :
    k ≠ [] ∧ (∀ c ∈ k, c ≠ ':' ∧ c ≠ '\n') ∧ k.head? ≠ some '#' ∧
    (∀ c, k.head? = some c → goIsSpace c = false) ∧
    (∀ c, k.reverse.head? = some c → goIsSpace c = false) := by
  unfold wfKey at h
  simp only [Bool.and_eq_true, decide_eq_true_eq, List.all_eq_true] at h
  obtain ⟨⟨⟨⟨hne, hall⟩, hh⟩, hhead⟩, hlast⟩ := h
  refine ⟨hne, ?_, hh, (noSpaceAt_iff _).mp hhead, (noSpaceAt_iff _).mp hlast⟩
  intro c hc
  have h2 := hall c hc
  simp only [Bool.and_eq_true, bne_iff_ne, ne_eq] at h2
  exact h2

theorem wfVal_props (v : Str) (h : wfVal v = true) :
    (∀ c ∈ v, c ≠ '\n') ∧
    (∀ c, v.head? = some c → goIsSpace c = false) ∧
    (∀ c, v.reverse.head? = some c → goIsSpace c = false) := by
  unfold wfVal at h
  simp only [Bool.and_eq_true, List.all_eq_true] at h
  obtain ⟨⟨hall, hhead⟩, hlast⟩ := h
  refine ⟨?_, (noSpaceAt_iff _).mp hhead, (noSpaceAt_iff _).mp hlast⟩
  intro c hc
  have h2 := hall c hc
  simp only [bne_iff_ne, ne_eq] at h2
  exact h2

theorem splitOnFirstColon_append (k r : Str) (hk : ∀ c ∈ k, c ≠ ':') :
    splitOnFirstColon (k ++ ':' :: r) = some (k, r) := by
  induction k with
  | nil => simp [splitOnFirstColon]
  | cons c rest ih =>
    have hc : ¬c = ':' := hk c (List.mem_cons_self c rest)
    rw [List.cons_append]
    unfold splitOnFirstColon
    rw [if_neg hc, ih (fun c2 hc2 => hk c2 (List.mem_cons_of_mem _ hc2))]
    rfl

theorem splitOnChar_append (sep : Char) (a r : Str) (ha : sep ∉ a) :
    splitOnChar sep (a ++ sep :: r) = a :: splitOnChar sep r := by
  induction a with
  | nil => simp [splitOnChar]
  | cons c rest ih =>
    have hc : ¬c = sep := fun he => ha (he ▸ List.mem_cons_self c rest)
    have hr := ih (fun hm => ha (List.mem_cons_of_mem _ hm))
    rw [List.cons_append]
    show (if c = sep then [] :: splitOnChar sep (rest ++ sep :: r)
          else match splitOnChar sep (rest ++ sep :: r) with
            | [] => [[c]]
            | chunk :: chunks => (c :: chunk) :: chunks) = (c :: rest) :: splitOnChar sep r
    rw [if_neg hc, hr]

theorem head?_append_left {α : Type} (l r : List α) (h : l ≠ []) :
    (l ++ r).head? = l.head? := by
  cases l with
  | nil => exact absurd rfl h
  | cons c rest => rfl

theorem reverse_lineOf (k v : Str) :
    (k ++ ':' :: ' ' :: v).reverse = v.reverse ++ ' ' :: ':' :: k.reverse := by
  simp

theorem dropCR_lineOf (k v : Str)
    (hv : ∀ c, v.reverse.head? = some c → goIsSpace c = false) :
    dropCR (k ++ ':' :: ' ' :: v) = k ++ ':' :: ' ' :: v := by
  unfold dropCR
  rw [reverse_lineOf]
  by_cases hv0 : v = []
  · subst hv0
    simp only [List.reverse_nil, List.nil_append, List.head?_cons]
    rw [if_neg (by decide)]
  · rw [head?_append_left _ _ (fun he => hv0 (List.reverse_eq_nil_iff.mp he))]
    cases hh : v.reverse.head? with
    | none => rw [if_neg (by simp)]
    | some c =>
      have hns := hv c hh
      have hcr : ¬(some c = some '\r') := by
        intro he
        injection he with he
        subst he
        exact absurd hns (by decide)
      rw [if_neg hcr]

theorem trimSpace_space_cons (v : Str) (hv : wfVal v = true) :
    trimSpace (' ' :: v) = v := by
  obtain ⟨-, hhead, hlast⟩ := wfVal_props v hv
  have h1 : (' ' :: v).dropWhile goIsSpace = v.dropWhile goIsSpace := by
    rw [List.dropWhile_cons, if_pos (by decide)]
  unfold trimSpace
  rw [h1, dropWhile_eq_self_of_head v hhead, dropWhile_eq_self_of_head v.reverse hlast,
    List.reverse_reverse]

theorem trimSpace_lineOf_of_ne (k v : Str) (hk : wfKey k = true) (hv : wfVal v = true)
    (hv0 : v ≠ []) :
    trimSpace (k ++ ':' :: ' ' :: v) = k ++ ':' :: ' ' :: v := by
  obtain ⟨hkne, -, -, hkhead, -⟩ := wfKey_props k hk
  obtain ⟨-, -, hvlast⟩ := wfVal_props v hv
  refine trimSpace_eq_self _ ?_ ?_
  · rw [head?_append_left _ _ hkne]
    exact hkhead
  · rw [reverse_lineOf, head?_append_left _ _ (fun he => hv0 (List.reverse_eq_nil_iff.mp he))]
    exact hvlast

theorem trimSpace_lineOf_of_nil (k : Str) (hk : wfKey k = true) :
    trimSpace (k ++ [':', ' ']) = k ++ [':'] := by
  obtain ⟨hkne, -, -, hkhead, hklast⟩ := wfKey_props k hk
  unfold trimSpace
  rw [dropWhile_eq_self_of_head (k ++ [':', ' ']) (by rw [head?_append_left _ _ hkne]; exact hkhead)]
  have hrev : (k ++ [':', ' ']).reverse = ' ' :: ':' :: k.reverse := by simp
  rw [hrev, List.dropWhile_cons, if_pos (by decide), List.dropWhile_cons, if_neg (by decide)]
  simp

theorem parseLine_lineOf (k v : Str) (hk : wfKey k = true) (hv : wfVal v = true) :
    parseLine (lineOf (k, v)) = some (k, v) := by
  obtain ⟨hkne, hkcn, hkhash, hkhead, hklast⟩ := wfKey_props k hk
  obtain ⟨-, -, hvlast⟩ := wfVal_props v hv
  unfold parseLine lineOf
  simp only []
  rw [dropCR_lineOf k v hvlast]
  by_cases hv0 : v = []
  · subst hv0
    rw [show (k ++ ':' :: ' ' :: ([] : Str)) = k ++ [':', ' '] from rfl]
    rw [trimSpace_lineOf_of_nil k hk]
    rw [if_neg (by simp)]
    rw [head?_append_left _ _ hkne, if_neg hkhash]
    rw [show (k ++ [':'] : Str) = k ++ ':' :: [] from rfl]
    rw [splitOnFirstColon_append k [] (fun c hc => (hkcn c hc).1)]
    simp only [Option.some.injEq, Prod.mk.injEq]
    exact ⟨trimSpace_eq_self k hkhead hklast, rfl⟩
  · rw [trimSpace_lineOf_of_ne k v hk hv hv0]
    rw [if_neg (by simp)]
    rw [head?_append_left _ _ hkne, if_neg hkhash]
    rw [splitOnFirstColon_append k (' ' :: v) (fun c hc => (hkcn c hc).1)]
    simp only [Option.some.injEq, Prod.mk.injEq]
    exact ⟨trimSpace_eq_self k hkhead hklast, trimSpace_space_cons v hv⟩

theorem processLine_lineOf (m0 : List (Str × Str)) (k v : Str) (hk : wfKey k = true)
    (hv : wfVal v = true) : processLine m0 (lineOf (k, v)) = insertAL m0 k v := by
  simp [processLine, parseLine_lineOf k v hk hv]

theorem processLine_header (m : List (Str × Str)) : processLine m headerLine = m := by
  have h : parseLine headerLine = none := by decide
  simp [processLine, h]

theorem processLine_nil (m : List (Str × Str)) : processLine m [] = m := rfl

theorem newline_not_mem_lineOf (k v : Str) (hk : wfKey k = true) (hv : wfVal v = true) :
    '\n' ∉ lineOf (k, v) := by
  obtain ⟨-, hkcn, -, -, -⟩ := wfKey_props k hk
  obtain ⟨hvnl, -, -⟩ := wfVal_props v hv
  intro hmem
  unfold lineOf at hmem
  rcases List.mem_append.mp hmem with h | h
  · exact (hkcn _ h).2 rfl
  · rcases List.mem_cons.mp h with h | h
    · exact absurd h (by decide)
    · rcases List.mem_cons.mp h with h | h
      · exact absurd h (by decide)
      · exact (hvnl _ h) rfl

theorem splitOnChar_flatMap (m : List (Str × Str)) (h : ∀ kv ∈ m, '\n' ∉ lineOf kv) :
    splitOnChar '\n' (m.flatMap fun kv => lineOf kv ++ ['\n']) = m.map lineOf ++ [[]] := by
  induction m with
  | nil => rfl
  | cons kv rest ih =>
    rw [List.flatMap_cons, List.append_assoc, List.singleton_append]
    rw [splitOnChar_append '\n' (lineOf kv) _ (h kv (List.mem_cons_self _ _))]
    rw [ih (fun kv2 h2 => h kv2 (List.mem_cons_of_mem _ h2))]
    rfl

theorem foldl_processLine_map (m : List (Str × Str))
    (h : ∀ kv ∈ m, wfKey kv.1 = true ∧ wfVal kv.2 = true) :
    ∀ m0, (m.map lineOf).foldl processLine m0 =
      m.foldl (fun acc kv => insertAL acc kv.1 kv.2) m0 := by
  induction m with
  | nil => intro m0; rfl
  | cons kv rest ih =>
    intro m0
    obtain ⟨k, v⟩ := kv
    have hw := h (k, v) (List.mem_cons_self _ _)
    rw [List.map_cons, List.foldl_cons, List.foldl_cons,
      processLine_lineOf m0 k v hw.1 hw.2]
    exact ih (fun kv2 h2 => h kv2 (List.mem_cons_of_mem _ h2)) (insertAL m0 k v)

theorem lookupAL_rebuild (q : Str) :
    ∀ (m m0 : List (Str × Str)), (m.map Prod.fst).Nodup →
      lookupAL (m.foldl (fun acc kv => insertAL acc kv.1 kv.2) m0) q =
        match lookupAL m q with
        | some v => some v
        | none => lookupAL m0 q := by
  intro m
  induction m with
  | nil => intro m0 _; rfl
  | cons kv rest ih =>
    intro m0 hnd
    obtain ⟨k, v⟩ := kv
    rw [List.map_cons] at hnd
    rcases List.nodup_cons.mp hnd with ⟨hk, hrest⟩
    rw [List.foldl_cons, ih (insertAL m0 k v) hrest]
    by_cases hkq : k = q
    · subst hkq
      have hnone : lookupAL rest k = none := lookupAL_eq_none rest k hk
      rw [hnone]
      simp [lookupAL, lookupAL_insertAL_self]
    · rw [lookupAL_insertAL_ne m0 k v q hkq]
      simp only [lookupAL, hkq, if_false]

/-- C9: for every in-memory mapping with distinct keys whose keys are
non-empty, colon-free, newline-free, do not begin with `#` and carry no
leading or trailing white space, and whose values are newline-free with no
leading or trailing white space, loading the artifact produced by `Save`
reconstructs exactly the same key-to-value mapping. -/
theorem store_C9_roundtrip (s : Store) (hnd : (s.mappings.map Prod.fst).Nodup)
    (hwf : ∀ kv ∈ s.mappings, wfKey kv.1 = true ∧ wfVal kv.2 = true) :
    ∀ q, lookupAL (Store.Load s.Save).mappings q = lookupAL s.mappings q := by
  intro q
  have hnl : ∀ kv ∈ s.mappings, '\n' ∉ lineOf kv := by
    intro kv hkv
    obtain ⟨k, v⟩ := kv
    exact newline_not_mem_lineOf k v (hwf _ hkv).1 (hwf _ hkv).2
  unfold Store.Load Store.Save splitLines
  simp only []
  rw [splitOnChar_append '\n' headerLine _ (by decide)]
  rw [splitOnChar_flatMap s.mappings hnl]
  rw [List.foldl_cons, processLine_header, List.foldl_append]
  rw [foldl_processLine_map s.mappings hwf []]
  simp only [List.foldl_cons, List.foldl_nil, processLine_nil]
  rw [lookupAL_rebuild q s.mappings [] hnd]
  cases lookupAL s.mappings q <;> rfl

theorem store_C9_roundtrip_witness :
    lookupAL (Store.Load (Store.Save ⟨m9⟩)).mappings (str "a") = lookupAL m9 (str "a") :=
  store_C9_roundtrip ⟨m9⟩ (by decide) (by decide) (str "a")

/-- C10: the CSV row parser prefers the CAD$ column — when CAD$ is
non-empty the row's parse result does not depend on the USD$ column at all
and any parsed transaction carries currency "CAD" and the CAD$ amount (sign
folded into the direction); when CAD$ is empty and USD$ is non-empty the
parsed transaction carries currency "USD" and the USD$ amount; when both
are empty the row is rejected with an error. -/
theorem csv_C10_amount_selection (parseFloat : Str → Option ℚ) (parseDate : Str → Option Nat)
    (cols cols2 : Str → Str) (sourcePath : Str) :
    (cols (str "CAD$") ≠ [] → (∀ n, n ≠ str "USD$" → cols n = cols2 n) →
      parseCSVRowCols parseFloat parseDate cols sourcePath =
        parseCSVRowCols parseFloat parseDate cols2 sourcePath) ∧
    (∀ tx, cols (str "CAD$") ≠ [] →
      parseCSVRowCols parseFloat parseDate cols sourcePath = .ok (some tx) →
      tx.txCurrency = str "CAD" ∧
      ∃ q, parseFloat (removeCommas (cols (str "CAD$"))) = some q ∧
        tx.txAmount = (if q < 0 then -q else q) ∧
        tx.txDirection = (if q < 0 then Direction.Out else Direction.In)) ∧
    (∀ tx, cols (str "CAD$") = [] → cols (str "USD$") ≠ [] →
      parseCSVRowCols parseFloat parseDate cols sourcePath = .ok (some tx) →
      tx.txCurrency = str "USD" ∧
      ∃ q, parseFloat (removeCommas (cols (str "USD$"))) = some q ∧
        tx.txAmount = (if q < 0 then -q else q) ∧
        tx.txDirection = (if q < 0 then Direction.Out else Direction.In)) ∧
    (cols (str "CAD$") = [] → cols (str "USD$") = [] →
      parseCSVRowCols parseFloat parseDate cols sourcePath = .error ()) := by
  refine ⟨?_, ?_, ?_, ?_⟩
  · intro hcad hagree
    have hAT := hagree (str "Account Type") (by decide)
    have hAN := hagree (str "Account Number") (by decide)
    have hTD := hagree (str "Transaction Date") (by decide)
    have hD1 := hagree (str "Description 1") (by decide)
    have hD2 := hagree (str "Description 2") (by decide)
    have hCAD := hagree (str "CAD$") (by decide)
    unfold parseCSVRowCols
    simp only []
    rw [← hAT, ← hAN, ← hTD, ← hD1, ← hD2, ← hCAD]
    rw [if_pos hcad, if_pos hcad]
  · intro tx hcad heq
    unfold parseCSVRowCols at heq
    simp only [] at heq
    rw [if_pos hcad] at heq
    by_cases h1 : toLowerStr (cols (str "Account Type")) = []
    · rw [if_pos h1] at heq
      simp at heq
    rw [if_neg h1] at heq
    by_cases h2 : cols (str "Account Number") = []
    · rw [if_pos h2] at heq
      simp at heq
    rw [if_neg h2] at heq
    cases hdate : parseDate (cols (str "Transaction Date")) with
    | none =>
      rw [hdate] at heq
      simp at heq
    | some d =>
      rw [hdate] at heq
      simp only [] at heq
      by_cases h3 :
          trimSpace (cols (str "Description 1") ++ ' ' :: cols (str "Description 2")) = []
      · rw [if_pos h3] at heq
        simp at heq
      rw [if_neg h3] at heq
      cases hq : parseFloat (removeCommas (cols (str "CAD$"))) with
      | none =>
        rw [hq] at heq
        simp at heq
      | some q =>
        rw [hq] at heq
        simp only [Option.map_some'] at heq
        by_cases h4 : q = 0
        · rw [if_pos h4] at heq
          simp at heq
        rw [if_neg h4] at heq
        rw [Except.ok.injEq, Option.some.injEq] at heq
        subst heq
        exact ⟨rfl, q, rfl, rfl, rfl⟩
  · intro tx hcadE husd heq
    unfold parseCSVRowCols at heq
    simp only [] at heq
    have hcadN : ¬(cols (str "CAD$") ≠ []) := fun h => h hcadE
    rw [if_neg hcadN, if_pos husd] at heq
    by_cases h1 : toLowerStr (cols (str "Account Type")) = []
    · rw [if_pos h1] at heq
      simp at heq
    rw [if_neg h1] at heq
    by_cases h2 : cols (str "Account Number") = []
    · rw [if_pos h2] at heq
      simp at heq
    rw [if_neg h2] at heq
    cases hdate : parseDate (cols (str "Transaction Date")) with
    | none =>
      rw [hdate] at heq
      simp at heq
    | some d =>
      rw [hdate] at heq
      simp only [] at heq
      by_cases h3 :
          trimSpace (cols (str "Description 1") ++ ' ' :: cols (str "Description 2")) = []
      · rw [if_pos h3] at heq
        simp at heq
      rw [if_neg h3] at heq
      cases hq : parseFloat (removeCommas (cols (str "USD$"))) with
      | none =>
        rw [hq] at heq
        simp at heq
      | some q =>
        rw [hq] at heq
        simp only [Option.map_some'] at heq
        by_cases h4 : q = 0
        · rw [if_pos h4] at heq
          simp at heq
        rw [if_neg h4] at heq
        rw [Except.ok.injEq, Option.some.injEq] at heq
        subst heq
        exact ⟨rfl, q, rfl, rfl, rfl⟩
  · intro h1 h2
    unfold parseCSVRowCols
    simp only []
    have hcadN : ¬(cols (str "CAD$") ≠ []) := fun h => h h1
    have husdN : ¬(cols (str "USD$") ≠ []) := fun h => h h2
    rw [if_neg hcadN, if_neg husdN]
    repeat' split
    all_goals try rfl
    all_goals exfalso
    all_goals simp_all

theorem csv_C10_amount_selection_witness :
    txC10.txCurrency = str "CAD" ∧
    ∃ q, pfW (removeCommas (colsW (str "CAD$"))) = some q ∧
      txC10.txAmount = (if q < 0 then -q else q) ∧
      txC10.txDirection = (if q < 0 then Direction.Out else Direction.In) :=
  (csv_C10_amount_selection pfW pdW colsW colsW []).2.1 txC10 (by decide) (by rfl)
